import Mathlib

/-!
A shallow embedding in Lean 4 of the `denoue` JSON-logging package
(files `denoue.go`, `structs.go`, and the current revision of
`stringutil.go`), together with theorems checking the package's
natural-language specification against the code.

Conventions of the embedding:
* Go strings are modelled as Lean `String`; character-level operations
  work on `String.data : List Char` (every character the code inspects,
  `"` and `\`, is ASCII, so byte-level and char-level processing agree).
* Go maps are modelled as association lists with unique keys; the map
  operations of the code preserve key uniqueness.
* A Go `panic` (out-of-range slice) is modelled by `Option.none`.
* The wall-clock timestamp read inside `Print` is an explicit input
  parameter `ts` of the model (the formatted time string).
-/

namespace Denoue

/-! ### Constants (stringutil.go) -/

/-- Model of `DEFAULT_TIME_LAYOUT` from stringutil.go. -/
def DEFAULT_TIME_LAYOUT : String := "2006-01-02 3:04:05.000pm Z07"

/-- Log level `INFO`. -/
def INFO : String := "INFO"

/-- Log level `WARN`. -/
def WARN : String := "WARN"

/-- Log level `ERROR`. -/
def ERROR : String := "ERROR"

/-- Reserved key `level`. -/
def LEVEL_KEY : String := "level"

/-- Reserved key `time`. -/
def TIME_KEY : String := "time"

/-- Reserved key `msgs`. -/
def MSG_KEY : String := "msgs"

/-- Reserved key `error`. -/
def ERR_KEY : String := "error"

/-- Opening curly brace token `OC` (written with an escape so the brace is text). -/
def OC : String := "\x7b"

/-- Closing curly brace token `CC`. -/
def CC : String := "\x7d"

/-- Opening square bracket token `OB`. -/
def OB : String := "["

/-- Closing square bracket token `CB`. -/
def CB : String := "]"

/-- Quote-mark token `QM`. -/
def QM : String := "\""

/-- Model of `wrap(s, t)` with a single token: `t + s + t` (stringutil.go `wrap`, 1-token case). -/
def wrap (s t : String) : String := t ++ s ++ t

/-- Model of `wrap(s, l, r)` with two tokens: `l + s + r` (stringutil.go `wrap`, 2-token case). -/
def wrapLR (s l r : String) : String := l ++ s ++ r

/-- The `in` helper of stringutil.go: linear scan membership test. -/
def memStr : List String → String → Bool
  | [], _ => false
  | v :: rest, s => if s = v then true else memStr rest s

/-! ### Escaper (structs.go: `escBuf.WriteEscaped`, `MakeSafe`) -/

/-- Model of `escBuf.WriteEscaped` from structs.go: copies the input, inserting a
backslash immediately before every double-quote character; every other
character (including backslashes) passes through unchanged. -/
def writeEscaped : List Char → List Char
  | [] => []
  | c :: rest =>
    if c = '"' then '\\' :: c :: writeEscaped rest
    else c :: writeEscaped rest

/-- Model of `MakeSafe` from structs.go: quote-escape a whole string. -/
def MakeSafe (s : String) : String := String.mk (writeEscaped s.data)

/-! ### JPair and JArray (structs.go) -/

/-- Model of `JPair`: a key/value pair of strings. -/
structure JPair where
  key : String
  val : String
deriving DecidableEq

/-- Model of `JPair.String` from stringutil.go: `"key": "val"`. -/
def JPair.toStr (p : JPair) : String := wrap p.key QM ++ ": " ++ wrap p.val QM

/-- Model of `JArray`: a key, a raw-value bucket `Vals`, and a pre-escaped bucket
`ByteVals` (the escaped byte buffers are modelled as `String`s). -/
structure JArray where
  key : String := ""
  vals : List String := []
  byteVals : List String := []
deriving DecidableEq

/-- Model of `NewJArray` from structs.go. -/
def NewJArray (key : String) : JArray := { key := key }

/-- Model of `JArray.Add` from structs.go: append a raw (unescaped) string to `Vals`. -/
def JArray.add (a : JArray) (val : String) : JArray :=
  { a with vals := a.vals ++ [val] }

/-- Model of `JArray.AddSafe` from structs.go: escape `format` and each argument,
concatenate them into one buffer, and append it to `ByteVals`. -/
def JArray.addSafe (a : JArray) (format : String) (args : List String) : JArray :=
  let buf := args.foldl (fun b arg => b ++ writeEscaped arg.data) (writeEscaped format.data)
  { a with byteVals := a.byteVals ++ [String.mk buf] }

/-- The `strings.Builder` loop of `JArray.String` (current stringutil
revision): the `first` flag suppresses the `", "` separator exactly once,
threaded across both the `Vals` and the `ByteVals` loop. -/
def joinAux : Bool → List String → String
  | _, [] => ""
  | first, s :: rest => (if first then s else ", " ++ s) ++ joinAux false rest

/-- Model of `JArray.String` (current stringutil revision): `"key": [` then the
quoted raw values in order, then (when the bucket is non-empty) the quoted
pre-escaped values in order, then `]`, comma-and-space separated with one
shared `first` flag. -/
def JArray.toStr (a : JArray) : String :=
  let pieces := a.vals.map (fun v => wrap v QM) ++
    (if a.byteVals.length > 0 then a.byteVals.map (fun b => QM ++ b ++ QM) else [])
  wrap a.key QM ++ ": " ++ OB ++ joinAux true pieces ++ CB

/-! ### JObject and JDict (structs.go)

`JObject` is the interface implemented by `JPair`, `JArray` and `JGroup`
(`JDict` itself does not implement it — it has no key).  `JDict.objects`
is a Go map from string keys to `JObject`s; it is modelled as an
association list with unique keys (uniqueness is preserved by `set`). -/

mutual

inductive JObject where
  | ofPair (p : JPair)
  | ofArray (a : JArray)
  | ofGroup (key : String) (dict : JDict)
deriving DecidableEq

inductive JDict where
  | nil
  | cons (key : String) (val : JObject) (rest : JDict)
deriving DecidableEq

end

/-- The three concrete node kinds behind the `JObject` interface
(membered by the `KeyVal` type-set of denoue.go). -/
inductive JKind where
  | pair
  | array
  | group
deriving DecidableEq

/-- The dynamic type of a node (what a Go type assertion inspects). -/
def JObject.kind : JObject → JKind
  | .ofPair _ => .pair
  | .ofArray _ => .array
  | .ofGroup _ _ => .group

/-- Model of `GetKey` of each `JObject` implementation. -/
def JObject.getKey : JObject → String
  | .ofPair p => p.key
  | .ofArray a => a.key
  | .ofGroup k _ => k

/-- Map read `d.objects[k]` (first matching entry). -/
def JDict.lookup : JDict → String → Option JObject
  | .nil, _ => none
  | .cons k v r, q => if k = q then some v else r.lookup q

/-- The keys of the dict, in entry order (models ranging over the map). -/
def JDict.keys : JDict → List String
  | .nil => []
  | .cons k _ r => k :: r.keys

/-- Model of `JDict.Set` from structs.go: `d.objects[elem.GetKey()] = elem` —
replaces the entry with the same key, or adds a new entry. -/
def JDict.set : JDict → JObject → JDict
  | .nil, o => .cons o.getKey o .nil
  | .cons k v r, o => if k = o.getKey then .cons k o r else .cons k v (r.set o)

/-- Model of `JDict.SetPair` from structs.go. -/
def JDict.setPair (d : JDict) (key val : String) : JDict :=
  d.set (.ofPair ⟨key, val⟩)

/-- Model of `NewJDict` from structs.go: the empty dict. -/
def NewJDict : JDict := .nil

/-! ### The dict serializer (current stringutil revision, `JDict.String`) -/

/-- The `default_keys` slice of `JDict.String`. -/
def default_keys : List String := [TIME_KEY, LEVEL_KEY, ERR_KEY]

/-- Lexicographic comparison of character lists (the order `sort.Strings`
sorts by; UTF-8 byte order and code-point order agree). -/
def charListLe : List Char → List Char → Bool
  | [], _ => true
  | _ :: _, [] => false
  | c :: cs, d :: ds => if c < d then true else if d < c then false else charListLe cs ds

/-- Lexicographic string comparison, boolean form. -/
def strLeb (a b : String) : Bool := charListLe a.data b.data

/-- Lexicographic string comparison, propositional form. -/
def strLe (a b : String) : Prop := strLeb a b = true

instance : DecidableRel strLe :=
  fun a b => inferInstanceAs (Decidable (strLeb a b = true))

/-- The key order `JDict.String` serializes in: first each of
`time`, `level`, `error` that is present, in that fixed order; then the
remaining keys sorted ascending (`sort.Strings`, modelled by
`List.insertionSort` on `String`). -/
def JDict.orderedKeys (d : JDict) : List String :=
  let defaults := default_keys.filter (fun k => (d.lookup k).isSome)
  let nonDefault := d.keys.filter (fun k => !memStr default_keys k)
  defaults ++ List.insertionSort strLe nonDefault

/-- Lookup in a list of already-serialized entries. -/
def entryLookup : List (String × Option String) → String → Option (Option String)
  | [], _ => none
  | (k, s) :: rest, q => if k = q then some s else entryLookup rest q

/-- Serialize the entries named by `ks` (propagating `none`, the model of
a Go panic inside a nested serialization). -/
def collectStrs (es : List (String × Option String)) : List String → Option (List String)
  | [] => some []
  | k :: rest =>
    match (entryLookup es k).getD none, collectStrs es rest with
    | some s, some ss => some (s :: ss)
    | _, _ => none

/-- The output-assembly tail of `JDict.String`: concatenate
`entry + ", "` for every key, then slice away the final two bytes and
wrap in curly braces.  On an empty dict `out` is empty and the Go slice
`out[:len(out)-2]` panics (slice bounds out of range), modelled as
`none`. -/
def dictToStrAux (ks : List String) (es : List (String × Option String)) : Option String :=
  match collectStrs es ks with
  | none => none
  | some [] => none
  | some strs =>
    let out := strs.foldl (fun acc s => acc ++ s ++ ", ") ""
    some (wrapLR (out.dropRight 2) OC CC)

mutual

/-- Model of `String()` of a `JObject`: dispatches to the implementation
(`JPair.String`, `JArray.String`, `JGroup.String`).  `JGroup.String` is
`"key": <dict>`; a panic below propagates as `none`. -/
def JObject.toStr : JObject → Option String
  | .ofPair p => some p.toStr
  | .ofArray a => some a.toStr
  | .ofGroup k d => (dictToStrAux d.orderedKeys d.entryStrs).map
      (fun s => wrap k QM ++ ": " ++ s)

/-- Each entry of the dict paired with its serialization. -/
def JDict.entryStrs : JDict → List (String × Option String)
  | .nil => []
  | .cons k v r => (k, v.toStr) :: r.entryStrs

end

/-- Model of `JDict.String` (current stringutil revision). -/
def JDict.toStr (d : JDict) : Option String :=
  dictToStrAux d.orderedKeys d.entryStrs

/-! ### The aggregator `JLog` (denoue.go)

`JLog.objects` is a Go map keyed by `GetKey()`; it is modelled as a list
of `JObject`s with pairwise-distinct keys.  The `sync.Once` gate is the
boolean `fired` (`false` = armed).  The sink is not stored: each
operation of the step semantics returns the bytes it writes to the sink
(`none` = nothing written). -/

/-- Errors returned by the lookup operations.  The Go code returns
`errors.New("key not found")` for an absent key and
`fmt.Errorf` (could not cast object from key k) for a failed type
assertion in the generic `Get[T]`. -/
inductive LogError where
  | notFound
  | typeMismatch (key : String)
deriving DecidableEq

/-- Map read over the objects list (Go `j.objects[k]`). -/
def objLookup : List JObject → String → Option JObject
  | [], _ => none
  | p :: rest, k => if p.getKey = k then some p else objLookup rest k

/-- Map write `j.objects[o.GetKey()] = o`: replace the entry with the
same key, or add a new one. -/
def objSet : List JObject → JObject → List JObject
  | [], o => [o]
  | p :: rest, o => if p.getKey = o.getKey then o :: rest else p :: objSet rest o

/-- Go `delete(j.objects, k)`: remove the entry with key `k` (the map
holds at most one, so removing all matches is equivalent). -/
def objErase : List JObject → String → List JObject
  | [], _ => []
  | p :: rest, k => if p.getKey = k then objErase rest k else p :: objErase rest k

/-- The aggregator state (`JLog` struct of denoue.go, with the
`sync.Once` gate as `fired` and the sink left external). -/
structure JLog where
  msgs : JArray
  level : String
  timeLayout : String
  objects : List JObject
  fired : Bool
deriving DecidableEq

/-- Model of `New()` from denoue.go. -/
def JLog.new : JLog :=
  { msgs := { key := MSG_KEY }, level := INFO, timeLayout := DEFAULT_TIME_LAYOUT,
    objects := [], fired := false }

/-- Model of `JLog.Get`: read-only map lookup (the model is a pure reader, so the
objects map is untouched by construction). -/
def JLog.get (j : JLog) (k : String) : Except LogError JObject :=
  match objLookup j.objects k with
  | some o => .ok o
  | none => .error .notFound

/-- The generic package-level `Get[T]` of denoue.go: lookup then a type
assertion against the requested node kind. -/
def JLog.getTyped (j : JLog) (k : String) (t : JKind) : Except LogError JObject :=
  match objLookup j.objects k with
  | none => .error .notFound
  | some o => if o.kind = t then .ok o else .error (.typeMismatch k)

/-- Model of `JLog.Pop`: lookup-and-remove; on a missing key the error is
returned and the state is unchanged. -/
def JLog.pop (j : JLog) (k : String) : Except LogError JObject × JLog :=
  match objLookup j.objects k with
  | none => (.error .notFound, j)
  | some o => (.ok o, { j with objects := objErase j.objects k })

/-- Model of `JLog.SetPair`. -/
def JLog.setPair (j : JLog) (key val : String) : JLog :=
  { j with objects := objSet j.objects (.ofPair ⟨key, val⟩) }

/-- Model of `JLog.Set`. -/
def JLog.set (j : JLog) (o : JObject) : JLog :=
  { j with objects := objSet j.objects o }

/-- Model of `JLog.SetTime`. -/
def JLog.setTime (j : JLog) (layout : String) : JLog :=
  { j with timeLayout := layout }

/-- Model of `JLog.Reset`: `j.once = new(sync.Once)` re-arms the gate. -/
def JLog.reset (j : JLog) : JLog := { j with fired := false }

/-- Model of `JLog.Info`: with arguments, `AddSafe`; without, `Add`.  The level
is not touched. -/
def JLog.info (j : JLog) (format : String) (args : List String) : JLog :=
  if args.length > 0 then { j with msgs := j.msgs.addSafe format args }
  else { j with msgs := j.msgs.add format }

/-- Model of `JLog.Warn`: promote the level to `WARN` unless it is `ERROR`, then
append the message exactly as `Info` does. -/
def JLog.warn (j : JLog) (format : String) (args : List String) : JLog :=
  let j1 := if j.level ≠ ERROR then { j with level := WARN } else j
  if args.length > 0 then { j1 with msgs := j1.msgs.addSafe format args }
  else { j1 with msgs := j1.msgs.add format }

/-- Model of `JLog.Error`: set the level to `ERROR` unconditionally and upsert the
reserved `error` pair holding the escaped error message (`err.Error()` is
modelled by the string `msg`). -/
def JLog.error (j : JLog) (msg : String) : JLog :=
  { j with level := ERROR,
           objects := objSet j.objects (.ofPair ⟨ERR_KEY, MakeSafe msg⟩) }

/-- Model of `JLog.Log`: assign the level returned by the custom function
directly, append its messages to the raw bucket `Vals`, and upsert each
of its objects. -/
def JLog.logf (j : JLog) (level : String) (msgs : List String)
    (objs : List JObject) : JLog :=
  { j with level := level,
           msgs := { j.msgs with vals := j.msgs.vals ++ msgs },
           objects := objs.foldl objSet j.objects }

/-- The record dict built inside `Print`'s `once.Do` body: the time pair,
the level pair, then — only when the raw bucket `Vals` is non-empty — the
messages array and every entry of the objects map; when `Vals` is empty
the body returns early (`none`: nothing is built or written). -/
def JLog.buildRecord (j : JLog) (ts : String) : Option JDict :=
  let d := (NewJDict.setPair TIME_KEY ts).setPair LEVEL_KEY j.level
  if j.msgs.vals.length > 0 then
    some (j.objects.foldl JDict.set (d.set (.ofArray j.msgs)))
  else none

/-- Model of `JLog.Print`: under the one-shot gate, build the record, serialize
it, and perform one write of the serialized string plus `"\n"`; returns
the new state and the bytes written to the sink (`none` = no write). -/
def JLog.print (j : JLog) (ts : String) : JLog × Option String :=
  if j.fired then (j, none)
  else
    let j1 := { j with fired := true }
    match j.buildRecord ts with
    | none => (j1, none)
    | some d =>
      match d.toStr with
      | none => (j1, none)
      | some s => (j1, some (s ++ "\n"))

/-- Model of `JLog.PrettyPrint`: shares the same `once` gate; its body builds the
record dict and hands it to the external `jq` renderer — it never writes
to the aggregator's sink `j.out`. -/
def JLog.prettyPrint (j : JLog) (_ts : String) : JLog × Option String :=
  if j.fired then (j, none)
  else ({ j with fired := true }, none)

/-! ### Trace semantics over the aggregator -/

/-- One call on the aggregator (`err` carries `err.Error()`; `logf`
carries the triple a custom `LogFunc` returns; `print`/`prettyPrint`
carry the formatted wall-clock reading). -/
inductive LogOp where
  | info (format : String) (args : List String)
  | warn (format : String) (args : List String)
  | err (msg : String)
  | setPair (key val : String)
  | set (o : JObject)
  | setTime (layout : String)
  | logf (level : String) (msgs : List String) (objs : List JObject)
  | print (ts : String)
  | prettyPrint (ts : String)
  | reset
deriving DecidableEq

/-- Execute one call: new state plus the bytes it writes to the sink. -/
def step (j : JLog) : LogOp → JLog × Option String
  | .info f as => (j.info f as, none)
  | .warn f as => (j.warn f as, none)
  | .err m => (j.error m, none)
  | .setPair k v => (j.setPair k v, none)
  | .set o => (j.set o, none)
  | .setTime l => (j.setTime l, none)
  | .logf l ms os => (j.logf l ms os, none)
  | .print ts => j.print ts
  | .prettyPrint ts => j.prettyPrint ts
  | .reset => (j.reset, none)

/-- Run a sequence of calls. -/
def run (j : JLog) (ops : List LogOp) : JLog :=
  ops.foldl (fun j op => (step j op).1) j

/-- Whether this call executes the body guarded by `once.Do`: a
`Print`/`PrettyPrint` on an armed gate does (even when it then writes
nothing); every other call, and any call on a fired gate, does not. -/
def firesBody (j : JLog) : LogOp → Bool
  | .print _ => !j.fired
  | .prettyPrint _ => !j.fired
  | _ => false

/-- How many calls of the trace execute the one-shot body. -/
def execCount (j : JLog) : List LogOp → Nat
  | [] => 0
  | op :: rest => (if firesBody j op then 1 else 0) + execCount (step j op).1 rest

/-- Whether a call is one of the three standard record operations
`Info` / `Warn` / `Error`. -/
def isRecOp : LogOp → Bool
  | .info _ _ => true
  | .warn _ _ => true
  | .err _ => true
  | _ => false

/-- The rank of a level in the INFO → WARN → ERROR hierarchy. -/
def levelRank (l : String) : Nat :=
  if l = ERROR then 2 else if l = WARN then 1 else 0

/-! ### Lock-scope model (denoue.go, mutex `j.mu`)

Each method body is transcribed as the sequence of lock-relevant atomic
actions it performs: acquiring/releasing `j.mu`, touching the shared
state (fields/objects/msgs/level/once), and writing to the sink.  A
method's body is mutually exclusive with the others exactly when every
state access sits between a Lock and its Unlock. -/

inductive MuAction where
  | lock
  | unlock
  | touch
  | writeSink
deriving DecidableEq

/-- Model of `Get` (method): `mu.Lock(); read objects; defer mu.Unlock()`. -/
def getActions : List MuAction := [.lock, .touch, .unlock]

/-- Generic package-level `Get[T]`: reads `j.objects` with no locking. -/
def getTypedActions : List MuAction := [.touch]

/-- Model of `Pop`: `mu.Lock(); read+delete; mu.Unlock()`. -/
def popActions : List MuAction := [.lock, .touch, .unlock]

/-- Model of `SetPair`, `Set`, `SetOutput`, `SetTime`, `Info`, `Warn`, `Error`,
`Log`: each is `mu.Lock(); mutate; mu.Unlock()`. -/
def lockedMutatorActions : List MuAction := [.lock, .touch, .unlock]

/-- Model of `Reset`: replaces `j.once` with no locking. -/
def resetActions : List MuAction := [.touch]

/-- Model of `Print`: inside `once.Do` it reads the state, builds and serializes
the record, and writes to the sink — `j.mu` is never acquired. -/
def printActions : List MuAction := [.touch, .writeSink]

/-- Model of `PrettyPrint`: reads the state and shells out — `j.mu` is never
acquired. -/
def prettyPrintActions : List MuAction := [.touch]

/-- Scan the action list with the current lock depth: `true` iff every
state access and sink write happens while the lock is held. -/
def lockedAux : Nat → List MuAction → Bool
  | _, [] => true
  | d, .lock :: rest => lockedAux (d + 1) rest
  | d, .unlock :: rest => lockedAux (d - 1) rest
  | d, .touch :: rest => decide (0 < d) && lockedAux d rest
  | d, .writeSink :: rest => decide (0 < d) && lockedAux d rest

/-- A method body executes entirely under the instance lock. -/
def underLock (as : List MuAction) : Bool := lockedAux 0 as

/-! ## Theorems -/

/-! ### Escaper lemmas -/

/-- Lemma: `writeEscaped` maps each character to itself, prefixed by a backslash
when it is a double quote. -/
theorem writeEscaped_eq_flatMap (cs : List Char) :
    writeEscaped cs = cs.flatMap (fun c => if c = '"' then ['\\', c] else [c]) := by
  induction cs with
  | nil => rfl
  | cons c rest ih => by_cases h : c = '"' <;> simp [writeEscaped, h, ih]

/-- On a quote-free input, escaping is the identity. -/
theorem writeEscaped_id_of_no_quote : ∀ {cs : List Char}, '"' ∉ cs → writeEscaped cs = cs := by
  intro cs h
  induction cs with
  | nil => rfl
  | cons c rest ih =>
    rw [List.mem_cons] at h
    push_neg at h
    have hc : ¬ c = '"' := fun hc => h.1 hc.symm
    simp [writeEscaped, hc, ih h.2]

/-- Escaping is injective on backslash-free inputs. -/
theorem writeEscaped_inj : ∀ (cs ds : List Char), '\\' ∉ cs → '\\' ∉ ds →
    writeEscaped cs = writeEscaped ds → cs = ds := by
  intro cs
  induction cs with
  | nil =>
    intro ds _ _ h
    cases ds with
    | nil => rfl
    | cons d rest =>
      exfalso
      by_cases hd : d = '"' <;> simp [writeEscaped, hd] at h
  | cons c cs ih =>
    intro ds hcs hds h
    cases ds with
    | nil =>
      exfalso
      by_cases hc : c = '"' <;> simp [writeEscaped, hc] at h
    | cons d rest =>
      rw [List.mem_cons] at hcs hds
      push_neg at hcs hds
      by_cases hc : c = '"' <;> by_cases hd : d = '"'
      · subst hc
        subst hd
        simp [writeEscaped] at h
        rw [ih rest hcs.2 hds.2 h]
      · subst hc
        simp [writeEscaped, hd] at h
        exact absurd h.1 hds.1
      · subst hd
        simp [writeEscaped, hc] at h
        exact absurd h.1.symm hcs.1
      · simp [writeEscaped, hc, hd] at h
        rw [h.1, ih rest hcs.2 hds.2 h.2]

/-- C7: `MakeSafe` returns its input with a backslash inserted immediately
before every double quote and every other character (backslashes included)
unchanged; it is the identity on quote-free strings and injective on
backslash-free strings (it is total by construction). -/
theorem C7_makeSafe_escaper :
    (∀ s : String,
      (MakeSafe s).data = s.data.flatMap (fun c => if c = '"' then ['\\', c] else [c]))
    ∧ (∀ s : String, '"' ∉ s.data → MakeSafe s = s)
    ∧ (∀ s t : String, '\\' ∉ s.data → '\\' ∉ t.data → MakeSafe s = MakeSafe t → s = t) := by
  refine ⟨fun s => writeEscaped_eq_flatMap s.data, ?_, ?_⟩
  · intro s h
    cases s with
    | mk data => exact congrArg String.mk (writeEscaped_id_of_no_quote h)
  · intro s t hs ht h
    have hdata : writeEscaped s.data = writeEscaped t.data := by
      cases s
      cases t
      injection h
    have h2 := writeEscaped_inj s.data t.data hs ht hdata
    cases s
    cases t
    exact congrArg String.mk h2

/-- Witness for C7 at concrete inputs. -/
theorem C7_makeSafe_escaper_witness :
    MakeSafe "ab" = "ab" ∧ ("cd" : String) = "cd" :=
  ⟨C7_makeSafe_escaper.2.1 "ab" (by decide),
   C7_makeSafe_escaper.2.2 "cd" "cd" (by decide) (by decide) rfl⟩

/-- C6: serializing an empty `JArray` yields `"key": []` for every key,
but serializing an empty `JDict` does not return the claimed `\x7b\x7d`
— the slice `out[:len(out)-2]` of `JDict.String` panics on the empty
accumulator (modelled as `none`). -/
theorem C6_empty_containers :
    (∀ k : String, JArray.toStr { key := k } = wrap k QM ++ ": " ++ OB ++ CB)
    ∧ JDict.toStr JDict.nil = none := by
  constructor
  · intro k
    show wrap k QM ++ ": " ++ OB ++ joinAux true [] ++ CB = wrap k QM ++ ": " ++ OB ++ CB
    simp [joinAux]
  · rfl

/-- Aggregator state after `New()` followed by `Info("hello ", "world")`
(a call with a non-empty argument list, so the message is recorded via
`AddSafe` into the escaped bucket `ByteVals`). -/
def jC1 : JLog := JLog.new.info "hello " ["world"]

/-- C1 (failing input): after recording one message through `AddSafe`,
the messages array is non-empty and serializes to a non-empty element
list, yet the first `Print()` writes nothing because its emptiness test
looks only at the raw bucket `Vals`; with raw messages present it
performs exactly one write of the record plus a newline. -/
theorem C1_print_vals_only_check :
    jC1.msgs.vals = [] ∧ jC1.msgs.byteVals = ["hello world"]
    ∧ JArray.toStr jC1.msgs = "\"msgs\": [\"hello world\"]"
    ∧ (jC1.print "TS").2 = none
    ∧ (jC1.print "TS").1.fired = true
    ∧ (JLog.new.print "TS").2 = none
    ∧ ((JLog.new.info "hi" []).print "TS").2 =
        some "\x7b\"time\": \"TS\", \"level\": \"INFO\", \"msgs\": [\"hi\"]\x7d\n" := by
  refine ⟨rfl, by decide, by decide, by decide, by decide, by decide, by decide⟩

/-- The lock-relevant action lists of all the aggregator's
mutating/reading methods. -/
def methodActions : List (List MuAction) :=
  [getActions, getTypedActions, popActions, lockedMutatorActions,
   resetActions, printActions, prettyPrintActions]

/-- C9 counterexample: it is not the case that every operation of the
aggregator runs its body under the instance lock — `Print` (among
others) performs its state reads and its sink write with the mutex never
acquired. -/
theorem C9_counterexample :
    ¬ (∀ as ∈ methodActions, underLock as = true) := by decide

/-- C9 (amended): the accessor/mutator methods (`Get`, `Pop`, `SetPair`,
`Set`, `SetOutput`, `SetTime`, `Info`, `Warn`, `Error`, `Log`) each hold
the per-instance mutex for their whole body, but the generic package
`Get[T]`, `Reset`, `Print` and `PrettyPrint` never acquire it — in
particular `Print`'s record construction, serialization and final write
run outside the lock, guarded only by the one-shot gate. -/
theorem C9_lock_scope :
    underLock getActions = true ∧ underLock popActions = true
    ∧ underLock lockedMutatorActions = true
    ∧ underLock getTypedActions = false ∧ underLock resetActions = false
    ∧ underLock printActions = false ∧ underLock prettyPrintActions = false := by
  decide

/-! ### C5: array bucket ordering under interleaved insertions -/

/-- One insertion into a `JArray`: raw `Add` or escaped `AddSafe`. -/
inductive ArrIns where
  | add (val : String)
  | addSafe (format : String) (args : List String)
deriving DecidableEq

/-- Apply one insertion. -/
def applyIns (a : JArray) : ArrIns → JArray
  | .add v => a.add v
  | .addSafe f as => a.addSafe f as

/-- The raw values of an insertion sequence, in insertion order. -/
def insRaw : List ArrIns → List String
  | [] => []
  | .add v :: rest => v :: insRaw rest
  | .addSafe _ _ :: rest => insRaw rest

/-- The escaped buffers of an insertion sequence, in insertion order
(each is the escape of the format concatenated with the escapes of the
arguments, exactly as `AddSafe` builds them). -/
def insEsc : List ArrIns → List String
  | [] => []
  | .add _ :: rest => insEsc rest
  | .addSafe f as :: rest =>
    String.mk (as.foldl (fun b arg => b ++ writeEscaped arg.data) (writeEscaped f.data)) ::
      insEsc rest

/-- Comma-and-space separated join. -/
def strIntercalate (sep : String) : List String → String
  | [] => ""
  | [s] => s
  | s :: rest => s ++ sep ++ strIntercalate sep rest

/-- The first-flag builder loop equals a plain `", "`-join. -/
theorem joinAux_true_eq_strIntercalate :
    ∀ l : List String, joinAux true l = strIntercalate ", " l := by
  have aux : ∀ (l : List String) (s : String),
      s ++ joinAux false l = strIntercalate ", " (s :: l) := by
    intro l
    induction l with
    | nil => intro s; simp [joinAux, strIntercalate]
    | cons x r ih =>
      intro s
      show s ++ (", " ++ x ++ joinAux false r) = s ++ ", " ++ strIntercalate ", " (x :: r)
      rw [← ih x]
      simp [String.append_assoc]
  intro l
  cases l with
  | nil => rfl
  | cons s rest =>
    show s ++ joinAux false rest = strIntercalate ", " (s :: rest)
    exact aux rest s

/-- Folding an insertion sequence leaves the key unchanged and appends
the raw and escaped projections to the respective buckets. -/
theorem foldl_applyIns_buckets :
    ∀ (cmds : List ArrIns) (a : JArray),
      (cmds.foldl applyIns a).key = a.key
      ∧ (cmds.foldl applyIns a).vals = a.vals ++ insRaw cmds
      ∧ (cmds.foldl applyIns a).byteVals = a.byteVals ++ insEsc cmds := by
  intro cmds
  induction cmds with
  | nil => intro a; simp [insRaw, insEsc]
  | cons c rest ih =>
    intro a
    cases c with
    | add v =>
      have h := ih (a.add v)
      refine ⟨h.1, ?_, ?_⟩
      · rw [List.foldl_cons]
        show (rest.foldl applyIns (a.add v)).vals = a.vals ++ insRaw (.add v :: rest)
        rw [h.2.1]
        simp [JArray.add, insRaw]
      · rw [List.foldl_cons]
        show (rest.foldl applyIns (a.add v)).byteVals = a.byteVals ++ insEsc (.add v :: rest)
        rw [h.2.2]
        simp [JArray.add, insEsc]
    | addSafe f as =>
      have h := ih (a.addSafe f as)
      refine ⟨h.1, ?_, ?_⟩
      · rw [List.foldl_cons]
        show (rest.foldl applyIns (a.addSafe f as)).vals = a.vals ++ insRaw (.addSafe f as :: rest)
        rw [h.2.1]
        simp [JArray.addSafe, insRaw]
      · rw [List.foldl_cons]
        show (rest.foldl applyIns (a.addSafe f as)).byteVals =
          a.byteVals ++ insEsc (.addSafe f as :: rest)
        rw [h.2.2]
        simp [JArray.addSafe, insEsc]

/-- The guard `if len(ByteVals) > 0` around the escaped-bucket loop is
redundant: mapping over an empty bucket already contributes nothing. -/
theorem byteVals_guard_redundant (l : List String) (f : String → String) :
    (if l.length > 0 then l.map f else []) = l.map f := by
  cases l <;> simp

/-- C5: for every key and every interleaving of `Add` and `AddSafe`
insertions into a fresh array, serialization lists all raw values
(quoted) first in insertion order, then all escaped values (quoted) in
insertion order; in particular `Add "a"; AddSafe "b"; Add "c"`
serializes as `["a", "c", "b"]`. -/
theorem C5_array_bucket_order :
    (∀ (k : String) (cmds : List ArrIns),
      JArray.toStr (cmds.foldl applyIns (NewJArray k)) =
        wrap k QM ++ ": " ++ OB ++
          strIntercalate ", "
            ((insRaw cmds).map (fun v => wrap v QM) ++
              (insEsc cmds).map (fun b => QM ++ b ++ QM)) ++ CB)
    ∧ JArray.toStr ((((NewJArray "k").add "a").addSafe "b" []).add "c") =
        "\"k\": [\"a\", \"c\", \"b\"]" := by
  constructor
  · intro k cmds
    have h := foldl_applyIns_buckets cmds (NewJArray k)
    show wrap (cmds.foldl applyIns (NewJArray k)).key QM ++ ": " ++ OB ++
        joinAux true
          ((cmds.foldl applyIns (NewJArray k)).vals.map (fun v => wrap v QM) ++
            (if ((cmds.foldl applyIns (NewJArray k)).byteVals.length > 0) then
              (cmds.foldl applyIns (NewJArray k)).byteVals.map (fun b => QM ++ b ++ QM)
            else [])) ++ CB = _
    rw [byteVals_guard_redundant, h.1, h.2.1, h.2.2, joinAux_true_eq_strIntercalate]
    simp [NewJArray]
  · decide

/-! ### C4: dict serialization key order -/

/-- Lemma: `charListLe` is total. -/
theorem charListLe_total : ∀ x y : List Char, charListLe x y = true ∨ charListLe y x = true := by
  intro x
  induction x with
  | nil => intro y; left; rfl
  | cons c cs ih =>
    intro y
    cases y with
    | nil => right; rfl
    | cons d ds =>
      rcases lt_trichotomy c d with h | h | h
      · left; simp [charListLe, h]
      · subst h
        rcases ih ds with h2 | h2
        · left; simp [charListLe, lt_irrefl, h2]
        · right; simp [charListLe, lt_irrefl, h2]
      · right; simp [charListLe, h]

/-- Lemma: `charListLe` is transitive. -/
theorem charListLe_trans : ∀ x y z : List Char,
    charListLe x y = true → charListLe y z = true → charListLe x z = true := by
  intro x
  induction x with
  | nil => intro y z _ _; rfl
  | cons c cs ih =>
    intro y z h1 h2
    cases y with
    | nil => simp [charListLe] at h1
    | cons d ds =>
      cases z with
      | nil => simp [charListLe] at h2
      | cons e es =>
        rcases lt_trichotomy c d with hcd | hcd | hcd
        · rcases lt_trichotomy d e with hde | hde | hde
          · simp [charListLe, lt_trans hcd hde]
          · subst hde; simp [charListLe, hcd]
          · simp [charListLe, lt_asymm hde, hde] at h2
        · subst hcd
          rcases lt_trichotomy c e with hce | hce | hce
          · simp [charListLe, hce]
          · subst hce
            simp [charListLe, lt_irrefl] at h1 h2 ⊢
            exact ih ds es h1 h2
          · simp [charListLe, lt_asymm hce, hce] at h2
        · simp [charListLe, lt_asymm hcd, hcd] at h1

instance : IsTotal String strLe := ⟨fun a b => charListLe_total a.data b.data⟩

instance : IsTrans String strLe := ⟨fun a b c => charListLe_trans a.data b.data c.data⟩

/-- Lemma: `charListLe` is exactly non-strict lexicographic order: `x` is
less-or-equal `y` iff `y` is not lexicographically below `x`. -/
theorem charListLe_iff_not_lt : ∀ x y : List Char, charListLe x y = true ↔ ¬ List.lt y x := by
  intro x
  induction x with
  | nil =>
    intro y
    constructor
    · intro _ h; nomatch h
    · intro _; rfl
  | cons c cs ih =>
    intro y
    cases y with
    | nil =>
      constructor
      · intro h; simp [charListLe] at h
      · intro h; exact absurd (List.lt.nil c cs) h
    | cons d ds =>
      rcases lt_trichotomy c d with h | h | h
      · have hc : charListLe (c :: cs) (d :: ds) = true := by simp [charListLe, h]
        have hnl : ¬ List.lt (d :: ds) (c :: cs) := by
          intro hlt
          cases hlt with
          | head _ _ h2 => exact absurd h2 (lt_asymm h)
          | tail h1 h2 _ => exact absurd h h2
        exact iff_of_true hc hnl
      · subst h
        have hstep : charListLe (c :: cs) (c :: ds) = charListLe cs ds := by
          simp [charListLe, lt_irrefl]
        rw [hstep, ih ds]
        constructor
        · intro hn hlt
          cases hlt with
          | head _ _ h2 => exact absurd h2 (lt_irrefl c)
          | tail h1 h2 h3 => exact hn h3
        · intro hn hlt
          exact hn (List.lt.tail (lt_irrefl c) (lt_irrefl c) hlt)
      · have hc : charListLe (c :: cs) (d :: ds) = false := by
          simp [charListLe, lt_asymm h, h]
        exact iff_of_false (by simp [hc]) (not_not_intro (List.lt.head ds cs h))

/-- A key has a binding exactly when it occurs in the key list. -/
theorem lookup_isSome_iff_mem_keys : ∀ (d : JDict) (q : String),
    (d.lookup q).isSome = true ↔ q ∈ d.keys
  | .nil, q => by simp [JDict.lookup, JDict.keys]
  | .cons k v r, q => by
    have ih := lookup_isSome_iff_mem_keys r q
    by_cases h : k = q
    · subst h; simp [JDict.lookup, JDict.keys]
    · simp only [JDict.lookup, JDict.keys, if_neg h, List.mem_cons, ih]
      constructor
      · exact Or.inr
      · rintro (hq | hq)
        · exact absurd hq.symm h
        · exact hq

/-- The `in` helper decides list membership. -/
theorem memStr_eq_true_iff (l : List String) (s : String) : memStr l s = true ↔ s ∈ l := by
  induction l with
  | nil => simp [memStr]
  | cons v rest ih =>
    by_cases h : s = v
    · subst h; simp [memStr]
    · simp [memStr, h, ih]

/-- C4: for every non-empty dict with (as in a Go map) pairwise-distinct
keys, the serialization key order is: those of `time`, `level`, `error`
that are present, in that fixed order, followed by the remaining keys in
lexicographically ascending order; the whole order is a permutation of
the dict's keys, and `JDict.String` serializes entries in exactly this
order. -/
theorem C4_dict_serialization_order (d : JDict) (_hne : d ≠ JDict.nil) (hnd : d.keys.Nodup) :
    ∃ r, d.orderedKeys = default_keys.filter (fun k => (d.lookup k).isSome) ++ r
      ∧ List.Sorted strLe r
      ∧ List.Perm r (d.keys.filter (fun k => !memStr default_keys k))
      ∧ List.Perm d.orderedKeys d.keys
      ∧ JDict.toStr d = dictToStrAux d.orderedKeys d.entryStrs := by
  refine ⟨List.insertionSort strLe (d.keys.filter (fun k => !memStr default_keys k)),
    rfl, List.sorted_insertionSort strLe _, List.perm_insertionSort strLe _, ?_, rfl⟩
  have hA : List.Perm (default_keys.filter (fun k => (d.lookup k).isSome))
      (d.keys.filter (fun k => memStr default_keys k)) := by
    have hAnd : (default_keys.filter (fun k => (d.lookup k).isSome)).Nodup :=
      List.Nodup.filter _ (by decide)
    have hBnd : (d.keys.filter (fun k => memStr default_keys k)).Nodup :=
      List.Nodup.filter _ hnd
    refine (List.perm_ext_iff_of_nodup hAnd hBnd).2 ?_
    intro x
    simp only [List.mem_filter, lookup_isSome_iff_mem_keys, memStr_eq_true_iff]
    exact and_comm
  have hr : List.Perm
      (List.insertionSort strLe (d.keys.filter (fun k => !memStr default_keys k)))
      (d.keys.filter (fun k => !memStr default_keys k)) :=
    List.perm_insertionSort strLe _
  show List.Perm (_ ++ _) d.keys
  exact (hA.append hr).trans (List.filter_append_perm (fun k => memStr default_keys k) d.keys)

/-- A dict holding exactly the keys `error`, `level`, `time`, `zebra`,
`apple`. -/
def dC4 : JDict :=
  ((((JDict.nil.setPair "error" "e").setPair "level" "l").setPair "time" "t").setPair
    "zebra" "z").setPair "apple" "a"

/-- Witness for C4: on the five-key example the serialization order is
`time, level, error, apple, zebra`, and the general theorem applies. -/
theorem C4_dict_serialization_order_witness :
    dC4.orderedKeys = ["time", "level", "error", "apple", "zebra"]
    ∧ ∃ r, dC4.orderedKeys = default_keys.filter (fun k => (dC4.lookup k).isSome) ++ r
      ∧ List.Sorted strLe r
      ∧ List.Perm r (dC4.keys.filter (fun k => !memStr default_keys k))
      ∧ List.Perm dC4.orderedKeys dC4.keys
      ∧ JDict.toStr dC4 = dictToStrAux dC4.orderedKeys dC4.entryStrs :=
  ⟨by decide, C4_dict_serialization_order dC4 (by decide) (by decide)⟩

/-! ### C2: the shared one-shot emission gate -/

/-- Lemma: `Print` leaves the state unchanged on a fired gate, and otherwise
only fires the gate (whatever it then writes). -/
theorem print_state (j : JLog) (ts : String) :
    (j.print ts).1 = if j.fired then j else { j with fired := true } := by
  unfold JLog.print
  split
  · rfl
  · split
    · rfl
    · split <;> rfl

/-- Lemma: `PrettyPrint` likewise only consumes the gate. -/
theorem prettyPrint_state (j : JLog) (ts : String) :
    (j.prettyPrint ts).1 = if j.fired then j else { j with fired := true } := by
  unfold JLog.prettyPrint
  split <;> rfl

/-- Effect of any non-`Reset` call on the gate: it stays fired, and it
becomes fired exactly when the call executes the one-shot body. -/
theorem step_fired (j : JLog) (op : LogOp) (hne : op ≠ LogOp.reset) :
    (step j op).1.fired = (j.fired || firesBody j op) := by
  cases op with
  | info f as =>
    simp only [step, firesBody, Bool.or_false]
    unfold JLog.info
    split <;> rfl
  | warn f as =>
    simp only [step, firesBody, Bool.or_false]
    unfold JLog.warn
    split <;> split <;> rfl
  | err m => simp [step, firesBody, JLog.error]
  | setPair k v => simp [step, firesBody, JLog.setPair]
  | set o => simp [step, firesBody, JLog.set]
  | setTime l => simp [step, firesBody, JLog.setTime]
  | logf l ms os => simp [step, firesBody, JLog.logf]
  | print ts =>
    simp only [step, firesBody]
    rw [print_state]
    cases h : j.fired <;> simp [h]
  | prettyPrint ts =>
    simp only [step, firesBody]
    rw [prettyPrint_state]
    cases h : j.fired <;> simp [h]
  | reset => exact absurd rfl hne

/-- Once the gate has fired, a reset-free trace executes no body. -/
theorem execCount_eq_zero_of_fired : ∀ (ops : List LogOp) (j : JLog),
    LogOp.reset ∉ ops → j.fired = true → execCount j ops = 0 := by
  intro ops
  induction ops with
  | nil => intro j _ _; rfl
  | cons op rest ih =>
    intro j hmem hf
    rw [List.mem_cons] at hmem
    push_neg at hmem
    have hne : op ≠ LogOp.reset := fun he => hmem.1 he.symm
    have hfb : firesBody j op = false := by
      cases op <;> simp [firesBody, hf]
    have h2 : (step j op).1.fired = true := by
      rw [step_fired j op hne, hf]
      rfl
    simp [execCount, hfb, ih j hmem.2 hf, ih _ hmem.2 h2]

/-- On an armed gate, a reset-free trace executes the body at most once. -/
theorem execCount_le_one : ∀ (ops : List LogOp) (j : JLog),
    LogOp.reset ∉ ops → j.fired = false → execCount j ops ≤ 1 := by
  intro ops
  induction ops with
  | nil => intro j _ _; exact Nat.zero_le 1
  | cons op rest ih =>
    intro j hmem hf
    rw [List.mem_cons] at hmem
    push_neg at hmem
    have hne : op ≠ LogOp.reset := fun he => hmem.1 he.symm
    cases hfb : firesBody j op with
    | false =>
      have h2 : (step j op).1.fired = false := by
        rw [step_fired j op hne, hf, hfb]
        rfl
      simpa [execCount, hfb] using ih (step j op).1 hmem.2 h2
    | true =>
      have h2 : (step j op).1.fired = true := by
        rw [step_fired j op hne, hfb]
        simp
      simp [execCount, hfb, execCount_eq_zero_of_fired rest _ hmem.2 h2]

/-- C2: within one gate lifetime (no `Reset` in the trace), at most one
`Print`/`PrettyPrint` call executes its `once.Do` body; a first `Print`
with an empty raw message bucket fires the gate while writing nothing;
on a fired gate both calls are complete no-ops; `Reset` re-arms. -/
theorem C2_one_shot_gate :
    (∀ (j : JLog) (ops : List LogOp), j.fired = false → LogOp.reset ∉ ops →
      execCount j ops ≤ 1)
    ∧ (∀ (j : JLog) (ts : String), j.fired = false → j.msgs.vals = [] →
      step j (.print ts) = ({ j with fired := true }, none))
    ∧ (∀ (j : JLog) (ts : String), j.fired = true →
      step j (.print ts) = (j, none) ∧ step j (.prettyPrint ts) = (j, none))
    ∧ (∀ j : JLog, step j .reset = ({ j with fired := false }, none)) := by
  refine ⟨fun j ops hf hmem => execCount_le_one ops j hmem hf, ?_, ?_, ?_⟩
  · intro j ts hf hv
    simp [step, JLog.print, JLog.buildRecord, hf, hv]
  · intro j ts hf
    constructor
    · simp [step, JLog.print, hf]
    · simp [step, JLog.prettyPrint, hf]
  · intro j
    rfl

/-- Witness for C2 on a concrete trace of three emission calls. -/
theorem C2_one_shot_gate_witness :
    execCount JLog.new [LogOp.print "a", LogOp.prettyPrint "b", LogOp.print "c"] ≤ 1 :=
  C2_one_shot_gate.1 JLog.new [LogOp.print "a", LogOp.prettyPrint "b", LogOp.print "c"]
    rfl (by decide)

/-! ### C3: the level state machine -/

/-- Lemma: `Info` never changes the level. -/
theorem info_level (j : JLog) (f : String) (as : List String) :
    (j.info f as).level = j.level := by
  unfold JLog.info
  split <;> rfl

/-- Lemma: `Warn` promotes to `WARN` unless the level is `ERROR`. -/
theorem warn_level (j : JLog) (f : String) (as : List String) :
    (j.warn f as).level = if j.level = ERROR then ERROR else WARN := by
  unfold JLog.warn
  by_cases h : j.level = ERROR
  · rw [if_pos h, if_neg (not_not_intro h)]
    split <;> simpa using h
  · rw [if_neg h, if_pos h]
    split <;> rfl

/-- Lemma: `Error` sets the level to `ERROR` unconditionally. -/
theorem error_level (j : JLog) (m : String) : (j.error m).level = ERROR := rfl

/-- One record call never decreases the level rank. -/
theorem levelRank_step_mono (j : JLog) (op : LogOp) (hop : isRecOp op = true) :
    levelRank j.level ≤ levelRank (step j op).1.level := by
  cases op with
  | info f as => simp [step, info_level]
  | warn f as =>
    show levelRank j.level ≤ levelRank (j.warn f as).level
    rw [warn_level]
    by_cases h : j.level = ERROR
    · rw [if_pos h, h]
    · rw [if_neg h]
      have hw : levelRank WARN = 1 := by decide
      rw [hw]
      unfold levelRank
      rw [if_neg h]
      split <;> omega
  | err m =>
    show levelRank j.level ≤ levelRank (j.error m).level
    rw [error_level]
    have he : levelRank ERROR = 2 := by decide
    rw [he]
    unfold levelRank
    split
    · omega
    · split <;> omega
  | setPair k v => simp [isRecOp] at hop
  | set o => simp [isRecOp] at hop
  | setTime l => simp [isRecOp] at hop
  | logf l ms os => simp [isRecOp] at hop
  | print ts => simp [isRecOp] at hop
  | prettyPrint ts => simp [isRecOp] at hop
  | reset => simp [isRecOp] at hop

/-- One record call keeps an `ERROR` level at `ERROR`. -/
theorem error_absorbing_step (j : JLog) (op : LogOp) (hop : isRecOp op = true)
    (h : j.level = ERROR) : (step j op).1.level = ERROR := by
  cases op with
  | info f as => show (j.info f as).level = ERROR; rw [info_level, h]
  | warn f as => show (j.warn f as).level = ERROR; rw [warn_level, if_pos h]
  | err m => exact error_level j m
  | setPair k v => simp [isRecOp] at hop
  | set o => simp [isRecOp] at hop
  | setTime l => simp [isRecOp] at hop
  | logf l ms os => simp [isRecOp] at hop
  | print ts => simp [isRecOp] at hop
  | prettyPrint ts => simp [isRecOp] at hop
  | reset => simp [isRecOp] at hop

/-- C3: starting from `INFO`, under any sequence of `Info`/`Warn`/`Error`
calls the level only advances along INFO → WARN → ERROR: `Info` never
changes it, `Warn` sets `WARN` only when the level is not `ERROR`,
`Error` sets `ERROR` unconditionally, the rank never decreases along a
trace, and `ERROR` is absorbing. -/
theorem C3_level_state_machine :
    JLog.new.level = INFO
    ∧ (∀ (j : JLog) (f : String) (as : List String), (j.info f as).level = j.level)
    ∧ (∀ (j : JLog) (f : String) (as : List String),
        (j.warn f as).level = if j.level = ERROR then ERROR else WARN)
    ∧ (∀ (j : JLog) (m : String), (j.error m).level = ERROR)
    ∧ (∀ (j : JLog) (ops : List LogOp), (∀ op ∈ ops, isRecOp op = true) →
        levelRank j.level ≤ levelRank (run j ops).level)
    ∧ (∀ (j : JLog) (ops : List LogOp), (∀ op ∈ ops, isRecOp op = true) →
        j.level = ERROR → (run j ops).level = ERROR) := by
  refine ⟨rfl, info_level, warn_level, error_level, ?_, ?_⟩
  · intro j ops
    induction ops generalizing j with
    | nil => intro _; exact le_refl _
    | cons op rest ih =>
      intro hops
      have h1 := levelRank_step_mono j op (hops op (List.mem_cons_self op rest))
      have h2 := ih (step j op).1 (fun o ho => hops o (List.mem_cons_of_mem op ho))
      exact le_trans h1 h2
  · intro j ops
    induction ops generalizing j with
    | nil => intro _ h; exact h
    | cons op rest ih =>
      intro hops h
      have h1 := error_absorbing_step j op (hops op (List.mem_cons_self op rest)) h
      exact ih (step j op).1 (fun o ho => hops o (List.mem_cons_of_mem op ho)) h1

/-- Witness for C3 on the spec's example trace `Info, Warn, Info`. -/
theorem C3_level_state_machine_witness :
    (run JLog.new [LogOp.info "a" [], LogOp.warn "b" [], LogOp.info "c" []]).level = WARN
    ∧ levelRank JLog.new.level ≤
        levelRank (run JLog.new [LogOp.info "a" [], LogOp.warn "b" [], LogOp.info "c" []]).level :=
  ⟨by decide,
   C3_level_state_machine.2.2.2.2.1 JLog.new
     [LogOp.info "a" [], LogOp.warn "b" [], LogOp.info "c" []] (by decide)⟩

/-! ### C8: lookup error handling -/

/-- After deleting key `k`, looking up `k` finds nothing. -/
theorem objLookup_erase_self : ∀ (os : List JObject) (k : String),
    objLookup (objErase os k) k = none := by
  intro os k
  induction os with
  | nil => rfl
  | cons p rest ih =>
    by_cases h : p.getKey = k
    · simp [objErase, h, ih]
    · simp [objErase, objLookup, h, ih]

/-- Deleting key `k` does not affect lookups of other keys. -/
theorem objLookup_erase_ne : ∀ (os : List JObject) (k q : String), q ≠ k →
    objLookup (objErase os k) q = objLookup os q := by
  intro os k q hq
  induction os with
  | nil => rfl
  | cons p rest ih =>
    by_cases h : p.getKey = k
    · have hpq : ¬ p.getKey = q := fun he => hq (he.symm.trans h)
      have hkq : ¬ k = q := fun he => hq he.symm
      simp [objErase, objLookup, h, hpq, hkq, ih]
    · by_cases h2 : p.getKey = q
      · simp [objErase, objLookup, h, h2, hq, ih]
      · simp [objErase, objLookup, h, h2, ih]

/-- C8: `Get` returns the stored node when the key is present (leaving
the map untouched — the model is a pure reader) and fails with NotFound
when absent; `Pop` returns the stored node and removes exactly that key
when present, and fails with NotFound leaving the state unchanged when
absent; the generic typed `Get[T]` fails with TypeMismatch when the
stored node's kind differs from the requested one. -/
theorem C8_get_pop_typed :
    (∀ (j : JLog) (k : String) (o : JObject), objLookup j.objects k = some o →
      j.get k = Except.ok o)
    ∧ (∀ (j : JLog) (k : String), objLookup j.objects k = none →
      j.get k = Except.error LogError.notFound)
    ∧ (∀ (j : JLog) (k : String) (o : JObject), objLookup j.objects k = some o →
      (j.pop k).1 = Except.ok o
      ∧ objLookup (j.pop k).2.objects k = none
      ∧ ∀ q, q ≠ k → objLookup (j.pop k).2.objects q = objLookup j.objects q)
    ∧ (∀ (j : JLog) (k : String), objLookup j.objects k = none →
      j.pop k = (Except.error LogError.notFound, j))
    ∧ (∀ (j : JLog) (k : String) (o : JObject) (t : JKind),
      objLookup j.objects k = some o → o.kind ≠ t →
      j.getTyped k t = Except.error (LogError.typeMismatch k)) := by
  refine ⟨?_, ?_, ?_, ?_, ?_⟩
  · intro j k o h
    simp [JLog.get, h]
  · intro j k h
    simp [JLog.get, h]
  · intro j k o h
    refine ⟨by simp [JLog.pop, h], ?_, ?_⟩
    · simp [JLog.pop, h, objLookup_erase_self]
    · intro q hq
      simp [JLog.pop, h, objLookup_erase_ne j.objects k q hq]
  · intro j k h
    simp [JLog.pop, h]
  · intro j k o t h ht
    simp [JLog.getTyped, h, ht]

/-- Aggregator holding one pair field under key `method`. -/
def j8 : JLog := JLog.new.set (JObject.ofPair ⟨"method", "GET"⟩)

/-- Witness for C8: popping the present key returns the stored pair, and
requesting it as an array kind yields TypeMismatch. -/
theorem C8_get_pop_typed_witness :
    (j8.pop "method").1 = Except.ok (JObject.ofPair ⟨"method", "GET"⟩)
    ∧ j8.getTyped "method" JKind.array = Except.error (LogError.typeMismatch "method") :=
  ⟨(C8_get_pop_typed.2.2.1 j8 "method" (JObject.ofPair ⟨"method", "GET"⟩) (by decide)).1,
   C8_get_pop_typed.2.2.2.2 j8 "method" (JObject.ofPair ⟨"method", "GET"⟩) JKind.array
     (by decide) (by decide)⟩

/-! ### C10: caller fields shadow the generated entries -/

/-- Setting a node makes it the binding of its own key. -/
theorem JDict.lookup_set_self : ∀ (d : JDict) (o : JObject),
    (d.set o).lookup o.getKey = some o
  | .nil, o => by simp [JDict.set, JDict.lookup]
  | .cons k v r, o => by
    by_cases h : k = o.getKey
    · simp [JDict.set, JDict.lookup, h]
    · have ih := JDict.lookup_set_self r o
      simp [JDict.set, JDict.lookup, h, ih]

/-- Setting a node leaves bindings of other keys unchanged. -/
theorem JDict.lookup_set_ne : ∀ (d : JDict) (o : JObject) (q : String), q ≠ o.getKey →
    (d.set o).lookup q = d.lookup q
  | .nil, o, q, h => by
    have hx : ¬ o.getKey = q := fun he => h he.symm
    simp [JDict.set, JDict.lookup, hx]
  | .cons k v r, o, q, h => by
    have hx : ¬ o.getKey = q := fun he => h he.symm
    by_cases hk : k = o.getKey
    · simp [JDict.set, JDict.lookup, hk, hx]
    · have ih := JDict.lookup_set_ne r o q h
      by_cases hq : k = q
      · simp [JDict.set, JDict.lookup, hk, hq, h]
      · simp [JDict.set, JDict.lookup, hk, hq, ih]

/-- Folding `Set` over objects none of which carries key `q` leaves the
binding of `q` unchanged. -/
theorem foldl_set_lookup_of_absent : ∀ (os : List JObject) (d : JDict) (q : String),
    (∀ o ∈ os, o.getKey ≠ q) → (os.foldl JDict.set d).lookup q = d.lookup q := by
  intro os
  induction os with
  | nil => intro d q _; rfl
  | cons p rest ih =>
    intro d q h
    rw [List.foldl_cons, ih (d.set p) q (fun o ho => h o (List.mem_cons_of_mem p ho))]
    exact JDict.lookup_set_ne d p q (fun he => h p (List.mem_cons_self p rest) he.symm)

/-- Folding `Set` over a unique-key object list installs the stored node
of key `q` as the final binding of `q`. -/
theorem foldl_set_lookup_found : ∀ (os : List JObject) (d : JDict) (q : String) (o : JObject),
    objLookup os q = some o → (os.map JObject.getKey).Nodup →
    (os.foldl JDict.set d).lookup q = some o := by
  intro os
  induction os with
  | nil => intro d q o h _; simp [objLookup] at h
  | cons p rest ih =>
    intro d q o h hnd
    rw [List.map_cons, List.nodup_cons] at hnd
    by_cases hp : p.getKey = q
    · rw [objLookup, if_pos hp] at h
      injection h with h
      subst h
      rw [List.foldl_cons]
      have habs : ∀ o2 ∈ rest, o2.getKey ≠ q := by
        intro o2 ho2 he
        exact hnd.1 (hp ▸ he ▸ List.mem_map_of_mem JObject.getKey ho2)
      rw [foldl_set_lookup_of_absent rest (d.set p) q habs, ← hp]
      exact JDict.lookup_set_self d p
    · rw [objLookup, if_neg hp] at h
      rw [List.foldl_cons]
      exact ih (d.set p) q o h hnd.2

/-- On an armed gate, `Print` writes exactly the serialization of the
record it builds, plus a newline (and nothing when the record is not
built or its serialization panics). -/
theorem print_output (j : JLog) (ts : String) (hf : j.fired = false) :
    (j.print ts).2 = (j.buildRecord ts).bind (fun d => d.toStr.map (fun s => s ++ "\n")) := by
  unfold JLog.print
  rw [if_neg (by simp [hf])]
  cases hb : j.buildRecord ts with
  | none => rfl
  | some d =>
    cases ht : d.toStr with
    | none => simp [ht]
    | some s => simp [ht]

/-- C10: when a caller stored a field under one of the reserved keys
`time`, `level` or `msgs`, the record built by the first `Print` binds
that key to the caller's node (the field loop runs after the generated
entries and dict insertion is last-write-wins), and `Print` writes that
record's serialization. -/
theorem C10_reserved_key_shadowing :
    ∀ (j : JLog) (ts k : String) (o : JObject),
      j.fired = false → j.msgs.vals ≠ [] →
      (j.objects.map JObject.getKey).Nodup →
      k ∈ [TIME_KEY, LEVEL_KEY, MSG_KEY] →
      objLookup j.objects k = some o →
      ∃ d, j.buildRecord ts = some d ∧ d.lookup k = some o
        ∧ (j.print ts).2 = d.toStr.map (fun s => s ++ "\n") := by
  intro j ts k o hf hv hnd _hk hlook
  have hlen : j.msgs.vals.length > 0 := by
    cases hvv : j.msgs.vals with
    | nil => exact absurd hvv hv
    | cons a l => simp [hvv]
  have hbuild : j.buildRecord ts = some (j.objects.foldl JDict.set
      (((NewJDict.setPair TIME_KEY ts).setPair LEVEL_KEY j.level).set
        (.ofArray j.msgs))) := by
    unfold JLog.buildRecord
    simp [hlen]
  refine ⟨_, hbuild, ?_, ?_⟩
  · exact foldl_set_lookup_found j.objects _ k o hlook hnd
  · rw [print_output j ts hf, hbuild]
    rfl

/-- Aggregator with one raw message and a caller-stored field under the
reserved key `time`. -/
def j10 : JLog := (JLog.new.info "hi" []).set (JObject.ofPair ⟨"time", "OVERRIDE"⟩)

/-- Witness for C10: the caller's `time` pair shadows the generated
timestamp in the emitted record. -/
theorem C10_reserved_key_shadowing_witness :
    ∃ d, j10.buildRecord "TS" = some d
      ∧ d.lookup "time" = some (JObject.ofPair ⟨"time", "OVERRIDE"⟩)
      ∧ (j10.print "TS").2 = d.toStr.map (fun s => s ++ "\n") :=
  C10_reserved_key_shadowing j10 "TS" "time" (JObject.ofPair ⟨"time", "OVERRIDE"⟩)
    rfl (by decide) (by decide) (by decide) (by decide)

end Denoue
